import Mathlib

/-!
Verification development for the event-bus persistence and session-lifecycle
engine (`event_bus/storage.py`, `agent_event_bus/server.py`,
`event_bus/helpers.py`).

The SQLite tables are modelled as Lean lists of rows; timestamps are modelled
as integers; each Python method of `SQLiteStorage` becomes a pure Lean
function from the storage state to a new state plus its return value.
-/

namespace EventBus

/-- A row of the `events` table (`Event` dataclass in `storage.py`). -/
structure Event where
  id : Nat
  event_type : String
  payload : String
  session_id : String
  timestamp : Int
  channel : String
deriving DecidableEq, Repr

/-- A row of the `sessions` table (`Session` dataclass in `storage.py`).
`deleted_at = none` means the session is active (soft-delete marker unset). -/
structure SessionRow where
  id : String
  display_id : String
  name : String
  machine : String
  cwd : String
  repo : String
  registered_at : Int
  last_heartbeat : Int
  client_id : Option String
  last_cursor : Option String
  deleted_at : Option Int
deriving DecidableEq, Repr

/-- The persistent store: the `sessions` and `events` tables plus the
`AUTOINCREMENT` counter backing `events.id` (SQLite starts it at 1 and it
never reuses values; events are never deleted). -/
structure Storage where
  sessions : List SessionRow
  events : List Event
  nextEventId : Nat
deriving DecidableEq, Repr

/-- A fresh database: empty tables, first event id will be 1. -/
def Storage.empty : Storage := ⟨[], [], 1⟩

/-- `SESSION_TIMEOUT` from `storage.py` (24 hours, in seconds). -/
def SESSION_TIMEOUT : Int := 86400

/-- Python `int(s)` on the cursor strings this system produces: optional
surrounding whitespace, an optional single sign, then a nonempty run of
decimal digits.  Returns `none` exactly when Python raises `ValueError`
(underscore digit grouping, accepted by Python, is not modelled; no cursor
here contains one). -/
def pyInt (s : String) : Option Int :=
  let cs := ((s.toList.dropWhile Char.isWhitespace).reverse.dropWhile
    Char.isWhitespace).reverse
  match cs with
  | [] => none
  | c :: rest =>
    let signed : Bool × List Char :=
      if c = '-' then (true, rest)
      else if c = '+' then (false, rest)
      else (false, c :: rest)
    if signed.2.isEmpty then none
    else if signed.2.all Char.isDigit then
      let n : Nat := signed.2.foldl (fun acc d => acc * 10 + (d.toNat - '0'.toNat)) 0
      some (if signed.1 then -(n : Int) else (n : Int))
    else none

/-- Cursor decoding in `get_events`: `if cursor:` skips `None` and the empty
string (both falsy); otherwise `int(cursor)` is attempted and a `ValueError`
resets `since_id` to 0 (start of history). -/
def sinceOf (cursor : Option String) : Int :=
  match cursor with
  | none => 0
  | some s => if s = "" then 0 else match pyInt s with | some n => n | none => 0

/-- Insertion sort used to model SQL `ORDER BY`.  `le a b = true` means `a`
may appear before `b`. -/
def insertLe {α : Type} (le : α → α → Bool) (a : α) : List α → List α
  | [] => [a]
  | b :: bs => if le a b then a :: b :: bs else b :: insertLe le a bs

/-- Sort a list of rows by the given order (models SQL `ORDER BY`). -/
def sortLe {α : Type} (le : α → α → Bool) (l : List α) : List α :=
  l.foldr (insertLe le) []

/-- `order` argument of `get_events` (`Literal["asc", "desc"]`). -/
inductive Order where
  | asc
  | desc
deriving DecidableEq, Repr

/-- The cursor clause of `get_events`' WHERE: no constraint when
`since_id == 0`, otherwise `id > since_id`. -/
def cursorPass (since_id : Int) (e : Event) : Bool :=
  since_id == 0 || (e.id : Int) > since_id

/-- The channel filter of `get_events`: `if channels:` means `None` and the
empty list both disable the filter; otherwise `channel IN (...)`. -/
def channelPass (channels : Option (List String)) (e : Event) : Bool :=
  match channels with
  | none => true
  | some cs => cs.isEmpty || cs.contains e.channel

/-- The event-type filter of `get_events`: `if event_types and
len(event_types) > 0:` means `None` and the empty list both disable the
filter; otherwise `event_type IN (...)`. -/
def typePass (event_types : Option (List String)) (e : Event) : Bool :=
  match event_types with
  | none => true
  | some ts => ts.isEmpty || ts.contains e.event_type

/-- The SELECT of `get_events`: filter by cursor, channels and types, order
by id, and apply LIMIT. -/
def queryEvents (st : Storage) (since_id : Int) (limit : Nat)
    (channels : Option (List String)) (order : Order)
    (event_types : Option (List String)) : List Event :=
  let filtered := st.events.filter fun e =>
    cursorPass since_id e && channelPass channels e && typePass event_types e
  let ordered := match order with
    | .asc => sortLe (fun a b : Event => a.id ≤ b.id) filtered
    | .desc => sortLe (fun a b : Event => b.id ≤ a.id) filtered
  ordered.take limit

/-- `next_cursor` computation of `get_events`: min id of the batch for
`desc`, max id for `asc`, and the input cursor unchanged when the batch is
empty. -/
def nextCursorOf (order : Order) (events : List Event)
    (cursor : Option String) : Option String :=
  match events with
  | [] => cursor
  | e :: es =>
    match order with
    | .desc => some (toString ((es.map Event.id).foldl min e.id))
    | .asc => some (toString ((es.map Event.id).foldl max e.id))

/-- `SQLiteStorage.get_events`. -/
def get_events (st : Storage) (cursor : Option String := none)
    (limit : Nat := 50) (channels : Option (List String) := none)
    (order : Order := .desc) (event_types : Option (List String) := none) :
    List Event × Option String :=
  (queryEvents st (sinceOf cursor) limit channels order event_types,
   nextCursorOf order
     (queryEvents st (sinceOf cursor) limit channels order event_types) cursor)

/-- `SQLiteStorage.add_event`: insert one row with the next AUTOINCREMENT
id and the server-assigned timestamp `now`, returning the inserted event. -/
def add_event (st : Storage) (event_type payload session_id : String)
    (now : Int) (channel : String := "all") : Storage × Event :=
  let e : Event :=
    ⟨st.nextEventId, event_type, payload, session_id, now, channel⟩
  ({ st with events := st.events ++ [e], nextEventId := st.nextEventId + 1 }, e)

/-- `SQLiteStorage.get_cursor`: `str(MAX(id))`, or `None` when the table is
empty (or, per `if max_id:`, when the max id is falsy). -/
def get_cursor (st : Storage) : Option String :=
  match st.events with
  | [] => none
  | e :: es =>
    let m := (es.map Event.id).foldl max e.id
    if m = 0 then none else some (toString m)

/-- Rows visible to reads: `deleted_at IS NULL`. -/
def activeP (r : SessionRow) : Bool :=
  r.deleted_at == none

/-- The WHERE clause of `find_session_by_client`:
`machine = ? AND client_id = ? AND deleted_at IS NULL`. -/
def dedupP (machine cid : String) (r : SessionRow) : Bool :=
  r.machine == machine && r.client_id == some cid && activeP r

/-- `SQLiteStorage.find_session_by_client` (fetchone over the dedup key;
only active rows match). -/
def find_session_by_client (st : Storage) (machine cid : String) :
    Option SessionRow :=
  st.sessions.find? (dedupP machine cid)

/-- `SQLiteStorage.get_session`: lookup by id among active rows only. -/
def get_session (st : Storage) (sid : String) : Option SessionRow :=
  st.sessions.find? fun r => r.id == sid && activeP r

/-- `SQLiteStorage.add_session`: `INSERT OR REPLACE` keyed by `id` — any row
with the same primary key is replaced. -/
def add_session (st : Storage) (s : SessionRow) : Storage :=
  { st with sessions := st.sessions.filter (fun r => r.id != s.id) ++ [s] }

/-- `SQLiteStorage.delete_session`: soft-delete; sets `deleted_at = now` on
the active row with the given id and reports whether any row was updated
(`rowcount > 0`). -/
def delete_session (st : Storage) (sid : String) (now : Int) :
    Storage × Bool :=
  ({ st with sessions := st.sessions.map fun r =>
      if r.id == sid && activeP r then { r with deleted_at := some now }
      else r },
   decide (0 < (st.sessions.filter fun r => r.id == sid && activeP r).length))

/-- `SQLiteStorage.list_sessions`: active rows ordered by `last_heartbeat`
descending. -/
def list_sessions (st : Storage) : List SessionRow :=
  sortLe (fun a b : SessionRow => b.last_heartbeat ≤ a.last_heartbeat)
    (st.sessions.filter activeP)

/-- The WHERE clause of `cleanup_stale_sessions`:
`last_heartbeat < cutoff AND deleted_at IS NULL`. -/
def staleP (cutoff : Int) (r : SessionRow) : Bool :=
  activeP r && decide (r.last_heartbeat < cutoff)

/-- The row update performed by `cleanup_stale_sessions` on each row. -/
def markStale (cutoff now : Int) (r : SessionRow) : SessionRow :=
  if staleP cutoff r then { r with deleted_at := some now } else r

/-- `SQLiteStorage.cleanup_stale_sessions`: soft-delete every active row
whose heartbeat is older than `now - timeout_seconds`, returning the number
of rows updated. -/
def cleanup_stale_sessions (st : Storage) (now : Int)
    (timeout : Int := SESSION_TIMEOUT) : Storage × Nat :=
  ({ st with sessions := st.sessions.map (markStale (now - timeout) now) },
   (st.sessions.filter (staleP (now - timeout))).length)

/-- `SQLiteStorage.session_count`: count of active rows. -/
def session_count (st : Storage) : Nat :=
  (st.sessions.filter activeP).length

/-- `_sanitize_name` from `helpers.py`: newline, tab and carriage return
become spaces. -/
def sanitize_name (name : String) : String :=
  ((name.replace "\n" " ").replace "\t" " ").replace "\r" " "

/-- `extract_repo_from_cwd` from `helpers.py`. -/
def extract_repo_from_cwd (cwd : String) : String :=
  let parts := (cwd.dropRightWhile (fun c => c = '/')).splitOn "/"
  let viaWorktrees : Option String :=
    if parts.contains ".worktrees" then
      let idx := parts.indexOf ".worktrees"
      if 0 < idx then some (sanitize_name (parts.getD (idx - 1) "")) else none
    else none
  match viaWorktrees with
  | some r => r
  | none =>
    let last := parts.getLastD ""
    if last = "" then "unknown" else sanitize_name last

/-- The session row created by a non-resumed `register_session`. -/
def newSessionRow (name machine cwd : String) (client_id : Option String)
    (sid display : String) (now : Int) : SessionRow :=
  ⟨sid, display, name, machine, cwd, extract_repo_from_cwd cwd,
    now, now, client_id, none, none⟩

/-- The value returned by `register_session` in `agent_event_bus/server.py`
(the fields of interest of its result dict). -/
structure RegResult where
  session_id : String
  display_id : String
  resumed : Bool
  cursor : Option String
deriving DecidableEq, Repr

/-- `register_session` from `agent_event_bus/server.py`.  `freshTok` models
the value of `str(uuid.uuid4())` and `freshDisplay` the value of
`generate_session_id()` at this call; `now` is `datetime.now()`.  The
resume-cursor fallback mirrors `existing.last_cursor or storage.get_cursor()`
(Python `or` treats the empty string as falsy). -/
def register_session (st : Storage) (name machine cwd : String)
    (client_id : Option String) (freshTok freshDisplay : String)
    (now : Int) : Storage × RegResult :=
  let st1 := (cleanup_stale_sessions st now).1
  let existing? : Option SessionRow :=
    match client_id with
    | some cid => find_session_by_client st1 machine cid
    | none => none
  match existing? with
  | some existing =>
    let updated := { existing with name := name, last_heartbeat := now }
    let st2 := add_session st1 updated
    let resume_cursor : Option String :=
      match existing.last_cursor with
      | some c => if c = "" then get_cursor st2 else some c
      | none => get_cursor st2
    (st2, ⟨existing.id, existing.display_id, true, resume_cursor⟩)
  | none =>
    let sid := client_id.getD freshTok
    let session := newSessionRow name machine cwd client_id sid freshDisplay now
    let st2 := add_session st1 session
    let r := add_event st2 "session_registered"
      (name ++ " started on " ++ machine ++ " in " ++ cwd) sid now
    (r.1, ⟨sid, freshDisplay, false, some (toString r.2.id)⟩)

/-- `SCHEMA_VERSION` from `storage.py`. -/
def SCHEMA_VERSION : Nat := 2

/-- The versions carrying a registered migration in the `MIGRATIONS`
registry (only `@migration(2, ...)` is registered). -/
def MIGRATION_VERSIONS : List Nat := [2]

/-- `_get_schema_version`: `SELECT MAX(version)`; a missing table
(`OperationalError`) or an empty table (`MAX` is `NULL`) both read as 0. -/
def get_schema_version (table : Option (List Nat)) : Nat :=
  match table with
  | none => 0
  | some rows => rows.foldr max 0

/-- The migration versions `_run_migrations` applies: every `version` in
`range(current+1, SCHEMA_VERSION+1)` that is in the registry, in loop
order. -/
def pending_migrations (current : Nat) : List Nat :=
  (List.range' (current + 1) (SCHEMA_VERSION - current)).filter
    fun v => decide (v ∈ MIGRATION_VERSIONS)

/-- The schema-version bookkeeping of `_init_db`: the table is created if
missing (so a missing table becomes an empty row set), the current version
is read, and `_run_migrations` runs only when it is below `SCHEMA_VERSION`
— in which case it applies the pending migrations, deletes every row of
`schema_version` and inserts the single row `SCHEMA_VERSION`.  Returns the
applied migration versions and the final rows of `schema_version`. -/
def init_schema_version (table : Option (List Nat)) : List Nat × List Nat :=
  let current := get_schema_version table
  if current < SCHEMA_VERSION then (pending_migrations current, [SCHEMA_VERSION])
  else ([], table.getD [])

/-- Outcome of the `os.kill(pid, 0)` probe in `is_client_alive`: the call
succeeds, raises `PermissionError` (process exists but cannot be
signalled), or raises `ProcessLookupError` (definitively gone). -/
inductive ProbeResult where
  | found
  | permissionDenied
  | noSuchProcess
deriving DecidableEq, Repr

/-- `is_client_alive` from `helpers.py`; `probe` models the OS process
table consulted by `os.kill(pid, 0)`. -/
def is_client_alive (client_id : Option String) (is_local : Bool)
    (probe : Int → ProbeResult) : Bool :=
  match client_id with
  | none => true
  | some cid =>
    if !is_local then true
    else
      match pyInt cid with
      | none => true
      | some pid =>
        match probe pid with
        | .found => true
        | .permissionDenied => true
        | .noSuchProcess => false

/-- One pending `add_event` call: its arguments and the server time
(`datetime.now()`) at the call. -/
structure AppendReq where
  event_type : String
  payload : String
  session_id : String
  channel : String
  now : Int
deriving DecidableEq, Repr

/-- Run a sequence of `add_event` calls against one store, collecting the
returned events in call order. -/
def runAppends (st : Storage) : List AppendReq → Storage × List Event
  | [] => (st, [])
  | r :: rs =>
    let p := add_event st r.event_type r.payload r.session_id r.now r.channel
    let q := runAppends p.1 rs
    (q.1, p.2 :: q.2)

/-- The event `add_event` inserts for request `r` when the AUTOINCREMENT
counter stands at `n`. -/
def mkEventAt (n : Nat) (r : AppendReq) : Event :=
  ⟨n, r.event_type, r.payload, r.session_id, r.now, r.channel⟩

/-- A store with one stale session (heartbeat 0) and one fresh session
(heartbeat 45), used to exercise the stale sweep at `now = 50`,
`timeout = 10`. -/
def stSweep : Storage :=
  ⟨[⟨"s", "ds", "ns", "m", "c", "r", 0, 0, none, none, none⟩,
    ⟨"f", "df", "nf", "m", "c", "r", 0, 45, none, none, none⟩], [], 1⟩

/-- A store holding exactly three events of ids 1, 2, 3 with types `A`, `B`,
`C` on channel `all` (the spec's example scenario). -/
def stC1 : Storage :=
  (add_event (add_event (add_event Storage.empty "A" "" "s" 10).1
    "B" "" "s" 11).1 "C" "" "s" 12).1

theorem mem_insertLe {α : Type} (le : α → α → Bool) (a x : α) (l : List α) :
    x ∈ insertLe le a l ↔ x = a ∨ x ∈ l := by
  induction l with
  | nil => simp [insertLe]
  | cons b bs ih =>
    simp only [insertLe]
    split
    · simp only [List.mem_cons]
    · simp only [List.mem_cons, ih]
      tauto

theorem mem_sortLe {α : Type} (le : α → α → Bool) (x : α) (l : List α) :
    x ∈ sortLe le l ↔ x ∈ l := by
  induction l with
  | nil => simp [sortLe]
  | cons b bs ih =>
    simp only [sortLe, List.foldr_cons]
    rw [mem_insertLe]
    simp only [sortLe] at ih
    rw [ih]
    simp [List.mem_cons]

theorem activeP_iff {r : SessionRow} : activeP r = true ↔ r.deleted_at = none := by
  simp [activeP]

theorem mem_list_sessions {st : Storage} {r : SessionRow} :
    r ∈ list_sessions st ↔ r ∈ st.sessions ∧ r.deleted_at = none := by
  rw [list_sessions, mem_sortLe, List.mem_filter, activeP_iff]

/-- Per-row effect of `delete_session`: after the call, every row whose id
is the deleted one is inactive. -/
theorem delete_session_inactive {st : Storage} {sid : String} {now : Int} :
    ∀ r ∈ (delete_session st sid now).1.sessions,
      r.id = sid → r.deleted_at ≠ none := by
  intro r hr hid
  simp only [delete_session, List.mem_map] at hr
  obtain ⟨x, _, hx⟩ := hr
  by_cases hc : (x.id == sid && activeP x) = true
  · rw [if_pos hc] at hx
    rw [← hx]
    simp
  · rw [if_neg hc] at hx
    subst hx
    simp only [Bool.and_eq_true, beq_iff_eq, activeP_iff, not_and] at hc
    exact hc hid

/-- C5: soft-delete invisibility and retention.  `delete` returns true iff
an active row with that id existed; afterwards `get` returns none, the
active listing excludes the id, the dedup lookup never returns it, and yet
a row with that id remains in the table with `deleted_at` set to `now`. -/
theorem soft_delete_invisible (st : Storage) (sid : String) (now : Int) :
    ((delete_session st sid now).2 = true ↔
      ∃ r ∈ st.sessions, r.id = sid ∧ r.deleted_at = none) ∧
    get_session (delete_session st sid now).1 sid = none ∧
    (∀ r ∈ list_sessions (delete_session st sid now).1, r.id ≠ sid) ∧
    (∀ machine cid r,
      find_session_by_client (delete_session st sid now).1 machine cid = some r →
      r.id ≠ sid) ∧
    (∀ r ∈ st.sessions, r.id = sid → r.deleted_at = none →
      { r with deleted_at := some now } ∈ (delete_session st sid now).1.sessions) := by
  refine ⟨?_, ?_, ?_, ?_, ?_⟩
  · simp only [delete_session, decide_eq_true_eq]
    rw [List.length_pos]
    constructor
    · intro h
      obtain ⟨r, hr⟩ := List.exists_mem_of_ne_nil _ h
      have hm := List.mem_filter.mp hr
      have hc := hm.2
      simp only [Bool.and_eq_true, beq_iff_eq, activeP_iff] at hc
      exact ⟨r, hm.1, hc⟩
    · rintro ⟨r, hr, hid, hact⟩
      intro hnil
      have : r ∈ (st.sessions.filter fun r => r.id == sid && activeP r) :=
        List.mem_filter.mpr ⟨hr, by simp [hid, activeP_iff, hact]⟩
      rw [hnil] at this
      exact absurd this (List.not_mem_nil r)
  · rw [get_session, List.find?_eq_none]
    intro r hr
    simp only [Bool.and_eq_true, beq_iff_eq, activeP_iff, not_and]
    intro hid
    exact delete_session_inactive r hr hid
  · intro r hr
    rw [mem_list_sessions] at hr
    intro hid
    exact delete_session_inactive r hr.1 hid hr.2
  · intro machine cid r hfind hid
    have hmem := List.mem_of_find?_eq_some hfind
    have hp := List.find?_some hfind
    simp only [dedupP, Bool.and_eq_true, beq_iff_eq, activeP_iff] at hp
    exact delete_session_inactive r hmem hid hp.2
  · intro r hr hid hact
    simp only [delete_session, List.mem_map]
    refine ⟨r, hr, ?_⟩
    rw [if_pos (by simp [hid, activeP_iff, hact])]

/-- C5 witness: the theorem applied to a one-session store. -/
theorem soft_delete_invisible_witness :
    ((delete_session ⟨[⟨"a", "d", "n", "m", "c", "r", 0, 0, none, none, none⟩], [], 1⟩
        "a" 5).2 = true ↔
      ∃ r ∈ [(⟨"a", "d", "n", "m", "c", "r", 0, 0, none, none, none⟩ : SessionRow)],
        r.id = "a" ∧ r.deleted_at = none) ∧
    get_session (delete_session
        ⟨[⟨"a", "d", "n", "m", "c", "r", 0, 0, none, none, none⟩], [], 1⟩ "a" 5).1 "a" = none ∧
    (∀ r ∈ list_sessions (delete_session
        ⟨[⟨"a", "d", "n", "m", "c", "r", 0, 0, none, none, none⟩], [], 1⟩ "a" 5).1, r.id ≠ "a") ∧
    (∀ machine cid r, find_session_by_client (delete_session
        ⟨[⟨"a", "d", "n", "m", "c", "r", 0, 0, none, none, none⟩], [], 1⟩ "a" 5).1 machine cid =
        some r → r.id ≠ "a") ∧
    (∀ r ∈ (⟨[⟨"a", "d", "n", "m", "c", "r", 0, 0, none, none, none⟩], [], 1⟩ : Storage).sessions,
      r.id = "a" → r.deleted_at = none →
      { r with deleted_at := some 5 } ∈ (delete_session
        ⟨[⟨"a", "d", "n", "m", "c", "r", 0, 0, none, none, none⟩], [], 1⟩ "a" 5).1.sessions) :=
  soft_delete_invisible ⟨[⟨"a", "d", "n", "m", "c", "r", 0, 0, none, none, none⟩], [], 1⟩ "a" 5

theorem markStale_of_not_stale {cutoff now : Int} {r : SessionRow}
    (h : staleP cutoff r = false) : markStale cutoff now r = r := by
  simp [markStale, h]

theorem markStale_active_eq_self {cutoff now : Int} {r : SessionRow}
    (h : (markStale cutoff now r).deleted_at = none) :
    markStale cutoff now r = r := by
  by_cases hs : staleP cutoff r = true
  · exfalso
    simp [markStale, hs] at h
  · exact markStale_of_not_stale (by simpa using hs)

/-- C6: the stale sweep soft-deletes exactly the active sessions whose
heartbeat is older than `now - timeout` and returns their count: a stale
active session is listed before the sweep and marked deleted by it, no
session listed after the sweep is stale, and fresh active sessions survive
unchanged. -/
theorem stale_sweep_spec (st : Storage) (timeout now : Int) :
    (cleanup_stale_sessions st now timeout).2 =
      (st.sessions.filter fun r =>
        decide (r.deleted_at = none ∧ r.last_heartbeat < now - timeout)).length ∧
    (∀ r ∈ st.sessions, r.deleted_at = none → r.last_heartbeat < now - timeout →
      r ∈ list_sessions st ∧
      { r with deleted_at := some now } ∈
        (cleanup_stale_sessions st now timeout).1.sessions) ∧
    (∀ r ∈ list_sessions (cleanup_stale_sessions st now timeout).1,
      ¬ r.last_heartbeat < now - timeout) ∧
    (∀ r ∈ st.sessions, r.deleted_at = none → ¬ r.last_heartbeat < now - timeout →
      r ∈ list_sessions (cleanup_stale_sessions st now timeout).1) := by
  refine ⟨?_, ?_, ?_, ?_⟩
  · simp only [cleanup_stale_sessions]
    congr 1
    apply List.filter_congr
    intro r _
    rw [Bool.eq_iff_iff]
    simp [staleP, activeP_iff]
  · intro r hr hact hstale
    constructor
    · exact mem_list_sessions.mpr ⟨hr, hact⟩
    · simp only [cleanup_stale_sessions, List.mem_map]
      refine ⟨r, hr, ?_⟩
      rw [markStale, if_pos (by simp [staleP, activeP_iff, hact, hstale])]
  · intro r hr
    rw [mem_list_sessions] at hr
    obtain ⟨hmem, hact⟩ := hr
    simp only [cleanup_stale_sessions, List.mem_map] at hmem
    obtain ⟨x, hxmem, hx⟩ := hmem
    have hself : markStale (now - timeout) now x = x :=
      markStale_active_eq_self (by rw [hx]; exact hact)
    have hxr : x = r := by rw [← hself, hx]
    subst hxr
    intro hstale
    have hs : staleP (now - timeout) x = true := by
      simp [staleP, activeP_iff, hact, hstale]
    simp only [markStale] at hself
    rw [if_pos hs] at hself
    have hd := congrArg SessionRow.deleted_at hself
    rw [hact] at hd
    exact Option.noConfusion hd
  · intro r hr hact hfresh
    rw [mem_list_sessions]
    refine ⟨?_, hact⟩
    simp only [cleanup_stale_sessions, List.mem_map]
    refine ⟨r, hr, ?_⟩
    exact markStale_of_not_stale (by simp [staleP, hfresh])

/-- C6 witness: at `now = 50` with `timeout = 10`, the stale session
(heartbeat 0) is listed before the sweep and marked deleted by it, and the
fresh session (heartbeat 45) is still listed after it. -/
theorem stale_sweep_spec_witness :
    (⟨"s", "ds", "ns", "m", "c", "r", 0, 0, none, none, none⟩ : SessionRow) ∈
      list_sessions stSweep ∧
    { (⟨"s", "ds", "ns", "m", "c", "r", 0, 0, none, none, none⟩ : SessionRow) with
        deleted_at := some 50 } ∈ (cleanup_stale_sessions stSweep 50 10).1.sessions ∧
    (⟨"f", "df", "nf", "m", "c", "r", 0, 45, none, none, none⟩ : SessionRow) ∈
      list_sessions (cleanup_stale_sessions stSweep 50 10).1 :=
  ⟨((stale_sweep_spec stSweep 10 50).2.1 _ (by decide) rfl (by decide)).1,
   ((stale_sweep_spec stSweep 10 50).2.1 _ (by decide) rfl (by decide)).2,
   (stale_sweep_spec stSweep 10 50).2.2.2 _ (by decide) rfl (by decide)⟩

theorem mem_add_session {st : Storage} {s r : SessionRow} :
    r ∈ (add_session st s).sessions ↔ r = s ∨ (r ∈ st.sessions ∧ r.id ≠ s.id) := by
  simp only [add_session, List.mem_append, List.mem_filter, List.mem_singleton,
    bne_iff_ne, ne_eq]
  tauto

theorem dedupP_markStale {machine cid : String} {cutoff now : Int}
    {x : SessionRow} (h : dedupP machine cid (markStale cutoff now x) = true) :
    markStale cutoff now x = x ∧ dedupP machine cid x = true := by
  have hact : (markStale cutoff now x).deleted_at = none := by
    have h' := h
    simp only [dedupP, Bool.and_eq_true, activeP_iff] at h'
    exact h'.2
  have hself := markStale_active_eq_self hact
  rw [hself] at h
  exact ⟨hself, h⟩

/-- Any dedup-matching row after a sweep was already present (and matching)
before it: the sweep only marks rows deleted. -/
theorem dedup_survives_cleanup {st : Storage} {now timeout : Int}
    {machine cid : String} {r : SessionRow}
    (hr : r ∈ (cleanup_stale_sessions st now timeout).1.sessions)
    (hp : dedupP machine cid r = true) : r ∈ st.sessions := by
  simp only [cleanup_stale_sessions, List.mem_map] at hr
  obtain ⟨x, hx, hxr⟩ := hr
  rw [← hxr] at hp
  obtain ⟨hself, _⟩ := dedupP_markStale hp
  rw [← hxr, hself]
  exact hx

/-- A row whose heartbeat is not older than the cutoff survives a sweep
unchanged. -/
theorem mem_cleanup_of_fresh {st : Storage} {now timeout : Int}
    {r : SessionRow} (hr : r ∈ st.sessions)
    (hfresh : ¬ r.last_heartbeat < now - timeout) :
    r ∈ (cleanup_stale_sessions st now timeout).1.sessions := by
  simp only [cleanup_stale_sessions, List.mem_map]
  exact ⟨r, hr, markStale_of_not_stale (by simp [staleP, hfresh])⟩

theorem find?_isSome_of_mem {α : Type} {p : α → Bool} {l : List α} {a : α}
    (ha : a ∈ l) (hpa : p a = true) : ∃ w, l.find? p = some w := by
  cases hf : l.find? p with
  | some w => exact ⟨w, rfl⟩
  | none => exact absurd hpa (by simpa using List.find?_eq_none.mp hf a ha)

/-- Unfolding of `register_session` on the resume path. -/
theorem register_session_resume (st : Storage)
    (name machine cwd cid t d : String) (now : Int) (ex : SessionRow)
    (hfind : find_session_by_client (cleanup_stale_sessions st now).1
      machine cid = some ex) :
    (register_session st name machine cwd (some cid) t d now).1.sessions =
      (add_session (cleanup_stale_sessions st now).1
        { ex with name := name, last_heartbeat := now }).sessions ∧
    (register_session st name machine cwd (some cid) t d now).2.session_id = ex.id ∧
    (register_session st name machine cwd (some cid) t d now).2.resumed = true := by
  simp only [register_session, hfind]
  refine ⟨?_, ?_, ?_⟩ <;> trivial

/-- Unfolding of `register_session` on the new-session path. -/
theorem register_session_new (st : Storage) (name machine cwd t d : String)
    (client_id : Option String) (now : Int)
    (hfind : ∀ cid, client_id = some cid →
      find_session_by_client (cleanup_stale_sessions st now).1 machine cid = none) :
    (register_session st name machine cwd client_id t d now).1.sessions =
      (add_session (cleanup_stale_sessions st now).1
        (newSessionRow name machine cwd client_id (client_id.getD t) d now)).sessions ∧
    (register_session st name machine cwd client_id t d now).2.session_id =
      client_id.getD t ∧
    (register_session st name machine cwd client_id t d now).2.resumed = false := by
  cases client_id with
  | none =>
    simp only [register_session]
    refine ⟨?_, ?_, ?_⟩ <;> trivial
  | some cid =>
    simp only [register_session, hfind cid rfl]
    refine ⟨?_, ?_, ?_⟩ <;> trivial

/-- C2 counterexample: session A registers with no `clientKey` and obtains
the generated id `"u"`.  Session B then registers with `clientKey "u"` — a
different `clientKey` than A's (A has none) — and is not resumed, yet gets
the same id `"u"`, and A's row (the only row with `client_id = none`) has
been overwritten out of the table entirely. -/
theorem register_dedup_counterexample :
    (register_session Storage.empty "a" "m" "/p" none "u" "dA" 0).2.session_id = "u" ∧
    (register_session (register_session Storage.empty "a" "m" "/p" none "u" "dA" 0).1
      "b" "m" "/p" (some "u") "tok" "dB" 0).2.resumed = false ∧
    (register_session (register_session Storage.empty "a" "m" "/p" none "u" "dA" 0).1
      "b" "m" "/p" (some "u") "tok" "dB" 0).2.session_id = "u" ∧
    ∀ r ∈ (register_session (register_session Storage.empty "a" "m" "/p" none "u" "dA" 0).1
      "b" "m" "/p" (some "u") "tok" "dB" 0).1.sessions, r.client_id ≠ none := by
  decide

/-- C2 amended: (1) registering twice with the same `(machine, clientKey)`
— assuming at most one active session per dedup key and a second call
within the stale timeout — yields the same session id both times and
`resumed = true` on the second call.  (2) Registering with no `clientKey`
uses the freshly generated token as id, so as long as that token is fresh
it never collides with any existing session's id, and every active,
non-stale session survives the call.  (Registering *with* a `clientKey`
uses the `clientKey` itself as id and can collide with — and overwrite — an
active session whose id equals it, as the counterexample shows.) -/
theorem register_dedup_amended :
    (∀ (st : Storage) (name₁ name₂ machine cwd₁ cwd₂ cid t₁ d₁ t₂ d₂ : String)
      (now₁ now₂ : Int),
      (∀ r₁ ∈ st.sessions, ∀ r₂ ∈ st.sessions, dedupP machine cid r₁ = true →
        dedupP machine cid r₂ = true → r₁ = r₂) →
      ¬ (now₁ : Int) < now₂ - SESSION_TIMEOUT →
      (register_session (register_session st name₁ machine cwd₁ (some cid) t₁ d₁ now₁).1
          name₂ machine cwd₂ (some cid) t₂ d₂ now₂).2.session_id =
        (register_session st name₁ machine cwd₁ (some cid) t₁ d₁ now₁).2.session_id ∧
      (register_session (register_session st name₁ machine cwd₁ (some cid) t₁ d₁ now₁).1
          name₂ machine cwd₂ (some cid) t₂ d₂ now₂).2.resumed = true) ∧
    (∀ (st : Storage) (name machine cwd t d : String) (now : Int),
      (∀ r ∈ st.sessions, r.id ≠ t) →
      (register_session st name machine cwd none t d now).2.session_id = t ∧
      ∀ r ∈ st.sessions, r.deleted_at = none →
        ¬ r.last_heartbeat < now - SESSION_TIMEOUT →
        r ∈ (register_session st name machine cwd none t d now).1.sessions ∧
        r.id ≠ (register_session st name machine cwd none t d now).2.session_id) := by
  constructor
  · intro st name₁ name₂ machine cwd₁ cwd₂ cid t₁ d₁ t₂ d₂ now₁ now₂ hU hfresh
    cases hfind : find_session_by_client (cleanup_stale_sessions st now₁).1 machine cid with
    | some ex =>
      obtain ⟨hsess, hid, _⟩ :=
        register_session_resume st name₁ machine cwd₁ cid t₁ d₁ now₁ ex hfind
      have hexmem1 : ex ∈ (cleanup_stale_sessions st now₁).1.sessions :=
        List.mem_of_find?_eq_some hfind
      have hexp : dedupP machine cid ex = true := List.find?_some hfind
      have hexmem0 : ex ∈ st.sessions := dedup_survives_cleanup hexmem1 hexp
      have hupd_p : dedupP machine cid
          ({ ex with name := name₁, last_heartbeat := now₁ }) = true := hexp
      have hupd_mem : ({ ex with name := name₁, last_heartbeat := now₁ } : SessionRow) ∈
          (register_session st name₁ machine cwd₁ (some cid) t₁ d₁ now₁).1.sessions := by
        rw [hsess]
        exact mem_add_session.mpr (Or.inl rfl)
      have hupd_mem2 : ({ ex with name := name₁, last_heartbeat := now₁ } : SessionRow) ∈
          (cleanup_stale_sessions
            (register_session st name₁ machine cwd₁ (some cid) t₁ d₁ now₁).1
            now₂).1.sessions :=
        mem_cleanup_of_fresh hupd_mem hfresh
      obtain ⟨w, hw⟩ := find?_isSome_of_mem hupd_mem2 hupd_p
      have hwmem2 := List.mem_of_find?_eq_some hw
      have hwp : dedupP machine cid w = true := List.find?_some hw
      have hwmemA : w ∈
          (register_session st name₁ machine cwd₁ (some cid) t₁ d₁ now₁).1.sessions :=
        dedup_survives_cleanup hwmem2 hwp
      rw [hsess] at hwmemA
      have hwid : w.id = ex.id := by
        rcases mem_add_session.mp hwmemA with h | ⟨hmem1, hne⟩
        · rw [h]
        · have hwmem0 : w ∈ st.sessions := dedup_survives_cleanup hmem1 hwp
          exact absurd (by rw [hU w hwmem0 ex hexmem0 hwp hexp]) hne
      obtain ⟨_, hid2, hres2⟩ := register_session_resume
        (register_session st name₁ machine cwd₁ (some cid) t₁ d₁ now₁).1
        name₂ machine cwd₂ cid t₂ d₂ now₂ w hw
      rw [hid2, hid, hres2, hwid]
      exact ⟨rfl, rfl⟩
    | none =>
      obtain ⟨hsess, hid, _⟩ := register_session_new st name₁ machine cwd₁ t₁ d₁
        (some cid) now₁ (by intro c hc; cases hc; exact hfind)
      have hnr_p : dedupP machine cid
          (newSessionRow name₁ machine cwd₁ (some cid) cid d₁ now₁) = true := by
        simp [dedupP, newSessionRow, activeP]
      have hnr_mem : newSessionRow name₁ machine cwd₁ (some cid) cid d₁ now₁ ∈
          (register_session st name₁ machine cwd₁ (some cid) t₁ d₁ now₁).1.sessions := by
        rw [hsess]
        exact mem_add_session.mpr (Or.inl rfl)
      have hnr_mem2 : newSessionRow name₁ machine cwd₁ (some cid) cid d₁ now₁ ∈
          (cleanup_stale_sessions
            (register_session st name₁ machine cwd₁ (some cid) t₁ d₁ now₁).1
            now₂).1.sessions :=
        mem_cleanup_of_fresh hnr_mem hfresh
      obtain ⟨w, hw⟩ := find?_isSome_of_mem hnr_mem2 hnr_p
      have hwmem2 := List.mem_of_find?_eq_some hw
      have hwp : dedupP machine cid w = true := List.find?_some hw
      have hwmemA : w ∈
          (register_session st name₁ machine cwd₁ (some cid) t₁ d₁ now₁).1.sessions :=
        dedup_survives_cleanup hwmem2 hwp
      rw [hsess] at hwmemA
      have hwid : w.id = cid := by
        rcases mem_add_session.mp hwmemA with h | ⟨hmem1, _⟩
        · rw [h]
          rfl
        · exact absurd hwp (by simpa using List.find?_eq_none.mp hfind w hmem1)
      obtain ⟨_, hid2, hres2⟩ := register_session_resume
        (register_session st name₁ machine cwd₁ (some cid) t₁ d₁ now₁).1
        name₂ machine cwd₂ cid t₂ d₂ now₂ w hw
      rw [hid2, hid, hres2, hwid]
      exact ⟨rfl, rfl⟩
  · intro st name machine cwd t d now hid
    obtain ⟨hsess, hsid, _⟩ := register_session_new st name machine cwd t d
      none now (by intro c hc; cases hc)
    refine ⟨hsid, ?_⟩
    intro r hrmem hact hfresh
    refine ⟨?_, ?_⟩
    · rw [hsess]
      apply mem_add_session.mpr
      right
      exact ⟨mem_cleanup_of_fresh hrmem hfresh, by simpa using hid r hrmem⟩
    · rw [hsid]
      exact hid r hrmem

/-- C2 witness: from an empty store, registering twice with
`(machine, clientKey) = ("m", "k")` yields the same id both times and
`resumed = true` the second time; and a fresh-token registration without a
key gets the token `"u"` as id. -/
theorem register_dedup_amended_witness :
    ((register_session (register_session Storage.empty "n1" "m" "/p" (some "k") "t1" "d1" 0).1
        "n2" "m" "/p" (some "k") "t2" "d2" 5).2.session_id =
      (register_session Storage.empty "n1" "m" "/p" (some "k") "t1" "d1" 0).2.session_id ∧
    (register_session (register_session Storage.empty "n1" "m" "/p" (some "k") "t1" "d1" 0).1
        "n2" "m" "/p" (some "k") "t2" "d2" 5).2.resumed = true) ∧
    (register_session Storage.empty "na" "m" "/p" none "u" "dA" 0).2.session_id = "u" :=
  ⟨register_dedup_amended.1 Storage.empty "n1" "n2" "m" "/p" "/p" "k" "t1" "d1" "t2" "d2" 0 5
      (by intro r₁ h₁; exact absurd h₁ (List.not_mem_nil r₁))
      (by decide),
   (register_dedup_amended.2 Storage.empty "na" "m" "/p" "u" "dA" 0
      (by intro r h; exact absurd h (List.not_mem_nil r))).1⟩

/-- C1 counterexample: with events 1, 2, 3 on channel `all`, the follow-up
`query(cursor="2", order=desc)` does *not* return the event with id 1 and
`nextCursor "1"` as the spec's scenario asserts (it returns the event with
id 3 and `nextCursor "3"`, because cursor filtering is `id > cursor`
regardless of order). -/
theorem desc_cursor_continuation_counterexample :
    ¬((get_events stC1 (some "2") 50 none .desc none).1.map Event.id = [1] ∧
      (get_events stC1 (some "2") 50 none .desc none).2 = some "1") := by
  decide

/-- C1 amended: cursor filtering always selects events with `id` greater
than the cursor regardless of order, so descending continuation moves toward
*newer* events, not older ones.  With exactly three events of ids 1, 2, 3 on
channel `all`: `query(order=desc, limit=2)` returns ids `[3, 2]` with
`nextCursor "2"`; the follow-up `query(cursor="2", order=desc)` returns the
event with id 3 and `nextCursor "3"`; a further `query(cursor="3",
order=desc)` returns an empty batch with `nextCursor "3"`. -/
theorem desc_cursor_continuation_actual :
    ((get_events stC1 none 2 none .desc none).1.map Event.id = [3, 2] ∧
      (get_events stC1 none 2 none .desc none).2 = some "2") ∧
    ((get_events stC1 (some "2") 50 none .desc none).1.map Event.id = [3] ∧
      (get_events stC1 (some "2") 50 none .desc none).2 = some "3") ∧
    get_events stC1 (some "3") 50 none .desc none = ([], some "3") := by
  decide

/-- C3: whenever `get_events` returns an empty batch, the returned
`nextCursor` equals the input cursor unchanged; and a query whose cursor
decodes to an id at or beyond the head of the log (at least every stored
event id, and positive) returns an empty batch with `nextCursor` equal to
the input cursor. -/
theorem empty_page_idempotent :
    (∀ (st : Storage) (cursor : Option String) (limit : Nat)
      (channels : Option (List String)) (order : Order)
      (event_types : Option (List String)),
      (get_events st cursor limit channels order event_types).1 = [] →
      (get_events st cursor limit channels order event_types).2 = cursor) ∧
    (∀ (st : Storage) (s : String) (m : Int) (limit : Nat)
      (channels : Option (List String)) (order : Order)
      (event_types : Option (List String)),
      pyInt s = some m → 0 < m → (∀ e ∈ st.events, (e.id : Int) ≤ m) →
      get_events st (some s) limit channels order event_types = ([], some s)) := by
  constructor
  · intro st cursor limit channels order event_types h
    simp only [get_events] at h ⊢
    rw [h]
    rfl
  · intro st s m limit channels order event_types hparse hm hle
    have hs : s ≠ "" := by
      intro h
      rw [h] at hparse
      simp [pyInt] at hparse
    have hsince : sinceOf (some s) = m := by
      simp [sinceOf, hs, hparse]
    have hfilt : st.events.filter (fun e =>
        cursorPass m e && channelPass channels e && typePass event_types e) = [] := by
      rw [List.filter_eq_nil_iff]
      intro e he
      have h1 : (m == 0) = false := by
        simp only [beq_eq_false_iff_ne, ne_eq]
        exact hm.ne'
      have h2 : ¬((e.id : Int) > m) := not_lt.mpr (hle e he)
      simp [cursorPass, h1, h2]
    have hq : queryEvents st m limit channels order event_types = [] := by
      unfold queryEvents
      rw [hfilt]
      cases order <;> simp [sortLe]
    simp only [get_events, hsince, hq, nextCursorOf]

/-- C3 witness: on the three-event store, querying at the head cursor "3"
returns an empty batch and `nextCursor "3"`. -/
theorem empty_page_idempotent_witness :
    get_events stC1 (some "3") 3 none .asc none = ([], some "3") :=
  empty_page_idempotent.2 stC1 "3" 3 3 none .asc none (by decide) (by decide)
    (by decide)

/-- C4 counterexample: on an empty log, a query with the unparsable cursor
`"not-a-number"` returns `nextCursor "not-a-number"` while a query with no
cursor returns `nextCursor None`, so the results are not equal. -/
theorem malformed_cursor_counterexample :
    get_events Storage.empty (some "not-a-number") 50 none .desc none ≠
      get_events Storage.empty none 50 none .desc none := by
  decide

/-- C4 amended: an unparsable cursor never fails and is treated as "start of
history": the returned events always equal those of a query with no cursor,
and the returned `nextCursor` also matches whenever the batch is nonempty
(on an empty batch the unparsable cursor is echoed back instead of `None`). -/
theorem malformed_cursor_graceful (st : Storage) (s : String) (limit : Nat)
    (channels : Option (List String)) (order : Order)
    (event_types : Option (List String)) (h : pyInt s = none) :
    (get_events st (some s) limit channels order event_types).1 =
      (get_events st none limit channels order event_types).1 ∧
    ((get_events st (some s) limit channels order event_types).1 ≠ [] →
      (get_events st (some s) limit channels order event_types).2 =
        (get_events st none limit channels order event_types).2) := by
  have hsince : sinceOf (some s) = sinceOf none := by
    by_cases hs : s = "" <;> simp [sinceOf, hs, h]
  constructor
  · simp only [get_events, hsince]
  · intro hne
    simp only [get_events, hsince] at hne ⊢
    rcases hq : queryEvents st (sinceOf none) limit channels order event_types
      with _ | ⟨e, es⟩
    · exact absurd hq hne
    · cases order <;> rfl

/-- C4 witness: on the three-event store, querying with the unparsable
cursor `"zzz"` returns the same events as querying with no cursor, and the
same nonempty-batch `nextCursor`. -/
theorem malformed_cursor_graceful_witness :
    (get_events stC1 (some "zzz") 50 none .desc none).1 =
      (get_events stC1 none 50 none .desc none).1 ∧
    ((get_events stC1 (some "zzz") 50 none .desc none).1 ≠ [] →
      (get_events stC1 (some "zzz") 50 none .desc none).2 =
        (get_events stC1 none 50 none .desc none).2) :=
  malformed_cursor_graceful stC1 "zzz" 50 none .desc none (by decide)

/-- C10: an empty `channels` list, like an empty `event_types` list, is
falsy in the Python guards and therefore disables that filter entirely: the
query result is identical to passing `None` for that filter. -/
theorem empty_filter_lists_no_op (st : Storage) (cursor : Option String)
    (limit : Nat) (order : Order) :
    (∀ event_types, get_events st cursor limit (some []) order event_types =
      get_events st cursor limit none order event_types) ∧
    (∀ channels, get_events st cursor limit channels order (some []) =
      get_events st cursor limit channels order none) := by
  have hc : channelPass (some []) = channelPass none := by
    funext e
    rfl
  have ht : typePass (some []) = typePass none := by
    funext e
    rfl
  constructor <;> intro x <;> simp only [get_events, queryEvents, hc, ht]

/-- C7 counterexample: opening a store whose `schema_version` table holds
the historically corrupted row set `[1, 2]` reads version 2 (the target),
runs no migration, and leaves *both* rows in place — afterwards the table
does not hold exactly one row equal to the target version. -/
theorem migration_bookkeeping_counterexample :
    (init_schema_version (some [1, 2])).2 ≠ [SCHEMA_VERSION] ∧
    (init_schema_version (some [1, 2])).2.length ≠ 1 := by
  decide

/-- C7 amended: on store open the current schema version is read as the
maximum version recorded (missing or empty table reads as 0); the applied
migrations are exactly the registered ones with version in
`(currentVersion, targetVersion]`, in strictly increasing order; and
whenever a migration step was needed (`currentVersion < targetVersion`) the
version table afterwards holds exactly the single row `targetVersion`,
replacing whatever rows were there before.  (When the store is already at
or past the target version the table is left untouched, so pre-existing
multi-row corruption persists, as the counterexample shows.) -/
theorem migration_bookkeeping :
    get_schema_version none = 0 ∧
    (∀ rows, (∀ v ∈ rows, v ≤ get_schema_version (some rows)) ∧
      (get_schema_version (some rows) = 0 ∨ get_schema_version (some rows) ∈ rows)) ∧
    (∀ table,
      List.Pairwise (· < ·) (init_schema_version table).1 ∧
      (∀ v, v ∈ (init_schema_version table).1 ↔
        get_schema_version table < v ∧ v ≤ SCHEMA_VERSION ∧
          v ∈ MIGRATION_VERSIONS) ∧
      (get_schema_version table < SCHEMA_VERSION →
        (init_schema_version table).2 = [SCHEMA_VERSION])) := by
  refine ⟨rfl, ?_, ?_⟩
  · intro rows
    induction rows with
    | nil => simp [get_schema_version]
    | cons a l ih =>
      have hgs : get_schema_version (some (a :: l)) =
          max a (get_schema_version (some l)) := rfl
      constructor
      · intro v hv
        rcases List.mem_cons.mp hv with h | h
        · rw [h, hgs]
          exact le_max_left _ _
        · exact le_trans (ih.1 v h) (by rw [hgs]; exact le_max_right _ _)
      · rw [hgs]
        rcases le_total (get_schema_version (some l)) a with hle | hle
        · rw [max_eq_left hle]
          right
          exact List.mem_cons_self a l
        · rw [max_eq_right hle]
          rcases ih.2 with h0 | hmem
          · left
            exact h0
          · right
            exact List.mem_cons_of_mem a hmem
  · intro table
    by_cases hc : get_schema_version table < SCHEMA_VERSION
    · have h1 : init_schema_version table =
          (pending_migrations (get_schema_version table), [SCHEMA_VERSION]) := by
        simp only [init_schema_version, if_pos hc]
      rw [h1]
      refine ⟨?_, ?_, fun _ => rfl⟩
      · exact ((List.pairwise_lt_range' _ _).sublist
          (List.filter_sublist _)).imp fun h => h
      · intro v
        simp only [pending_migrations, List.mem_filter, List.mem_range'_1,
          decide_eq_true_eq]
        constructor
        · rintro ⟨⟨hv1, hv2⟩, hv3⟩
          exact ⟨by omega, by omega, hv3⟩
        · rintro ⟨hv1, hv2, hv3⟩
          exact ⟨⟨by omega, by omega⟩, hv3⟩
    · have h1 : init_schema_version table = ([], table.getD []) := by
        simp only [init_schema_version, if_neg hc]
      rw [h1]
      refine ⟨List.Pairwise.nil, ?_, fun h => absurd h hc⟩
      intro v
      simp only [List.not_mem_nil, false_iff, not_and]
      intro hv1 hv2 _
      omega

/-- C7 witness: opening a version-1 store applies exactly migration 2 and
rewrites the version table to the single row 2. -/
theorem migration_bookkeeping_witness :
    (init_schema_version (some [1])).2 = [SCHEMA_VERSION] ∧
    2 ∈ (init_schema_version (some [1])).1 :=
  ⟨(migration_bookkeeping.2.2 (some [1])).2.2 (by decide),
   ((migration_bookkeeping.2.2 (some [1])).2.1 2).mpr (by decide)⟩

/-- C8: the liveness oracle's truth table.  `isAlive` returns true when the
client key is absent, when the session is not local, or when the key does
not parse as a pid; when the key is present, local and parses, it returns
true iff the probe does not report `ProcessLookupError` (so a permission
error still counts as alive, and no probe outcome escapes as an error). -/
theorem is_client_alive_spec (client_id : Option String) (is_local : Bool)
    (probe : Int → ProbeResult) :
    (client_id = none → is_client_alive client_id is_local probe = true) ∧
    (is_local = false → is_client_alive client_id is_local probe = true) ∧
    (∀ s, client_id = some s → pyInt s = none →
      is_client_alive client_id is_local probe = true) ∧
    (∀ s pid, client_id = some s → is_local = true → pyInt s = some pid →
      (is_client_alive client_id is_local probe = true ↔
        probe pid ≠ ProbeResult.noSuchProcess)) := by
  refine ⟨?_, ?_, ?_, ?_⟩
  · intro h
    subst h
    rfl
  · intro h
    subst h
    cases client_id with
    | none => rfl
    | some cid => simp [is_client_alive]
  · intro s h hp
    subst h
    cases is_local <;> simp [is_client_alive, hp]
  · intro s pid h hl hp
    subst h
    subst hl
    simp only [is_client_alive, Bool.not_true, Bool.false_eq_true,
      if_false, hp]
    cases probe pid <;> simp

/-- C8 witness: a local numeric client key whose process is definitively
gone reads as dead; an absent key reads as alive. -/
theorem is_client_alive_spec_witness :
    is_client_alive (some "42") true (fun _ => ProbeResult.noSuchProcess) = false ∧
    is_client_alive none false (fun _ => ProbeResult.found) = true := by
  constructor
  · have h := (is_client_alive_spec (some "42") true
      (fun _ => ProbeResult.noSuchProcess)).2.2.2 "42" 42 rfl rfl (by decide)
    cases hb : is_client_alive (some "42") true (fun _ => ProbeResult.noSuchProcess)
    · rfl
    · exact absurd (h.mp hb) (by simp)
  · exact (is_client_alive_spec none false (fun _ => ProbeResult.found)).1 rfl

theorem chain'_lt_range' (s n : Nat) :
    List.Chain' (· < ·) (List.range' s n) :=
  (List.pairwise_lt_range' s n).chain'

/-- C9: for any sequence of `add_event` calls against one store, the
returned events are exactly the requests paired in order with the
consecutive AUTOINCREMENT ids starting at the store's counter — so the
returned ids are strictly increasing in call order — and each returned
event (carrying its assigned id and the server-assigned timestamp of its
call) is exactly what was appended to the log. -/
theorem append_monotonic_ids (st : Storage) (reqs : List AppendReq) :
    (runAppends st reqs).2 =
      (reqs.zip (List.range' st.nextEventId reqs.length)).map
        (fun p => mkEventAt p.2 p.1) ∧
    (runAppends st reqs).1.events = st.events ++ (runAppends st reqs).2 ∧
    List.Chain' (fun a b : Event => a.id < b.id) (runAppends st reqs).2 := by
  have main : ∀ (rs : List AppendReq) (s : Storage),
      (runAppends s rs).2 =
        (rs.zip (List.range' s.nextEventId rs.length)).map
          (fun p => mkEventAt p.2 p.1) ∧
      (runAppends s rs).1.events = s.events ++ (runAppends s rs).2 := by
    intro rs
    induction rs with
    | nil => intro s; simp [runAppends]
    | cons r rs ih =>
      intro s
      obtain ⟨ih1, ih2⟩ :=
        ih (add_event s r.event_type r.payload r.session_id r.now r.channel).1
      constructor
      · simp only [runAppends, List.length_cons, List.range'_succ,
          List.zip_cons_cons, List.map_cons]
        exact congrArg _ ih1
      · simp only [runAppends]
        rw [ih2]
        simp [add_event]
  obtain ⟨h1, h2⟩ := main reqs st
  refine ⟨h1, h2, ?_⟩
  have hids : (runAppends st reqs).2.map Event.id =
      List.range' st.nextEventId reqs.length := by
    rw [h1, List.map_map]
    have : (Event.id ∘ fun p : AppendReq × Nat => mkEventAt p.2 p.1) =
        Prod.snd := by
      funext p
      rfl
    rw [this]
    exact List.map_snd_zip _ _ (by simp)
  have hch := chain'_lt_range' st.nextEventId reqs.length
  rw [← hids, List.chain'_map] at hch
  exact hch

end EventBus
